import Mathlib

/-!
Shallow embedding of `src/main.py`: an in-process answer cache with LRU
eviction and TTL expiration, plus hit/miss analytics.

Modelling choices:
* The `OrderedDict` cache is a list of `(key, answer, timestamp)` triples,
  least-recently-used first; `cache[key] = v` on a fresh key appends at the
  most-recently-used end, `popitem(last=False)` removes the head.
* Timestamps and the clock are naturals (seconds); each request carries the
  value `time.time()` returns during it.
* `str.strip` / `str.lower` are modelled on ASCII: `isSpace` covers the ASCII
  whitespace characters Python strips, and `Char.toLower` (Lean core) is
  exactly Python's lowercasing on ASCII.
* Floats (`0.50`, the rates, `round(x, 2)`) are modelled as rationals, with
  `round2` rounding to two decimal places.
-/

namespace AiCaching

/-- ASCII whitespace as stripped by Python's `str.strip()`: the characters
with code points 32 (space), 9 (tab), 10 (newline), 13 (carriage return),
11 (vertical tab) and 12 (form feed). -/
def isSpace (c : Char) : Bool :=
  c.toNat = 32 || c.toNat = 9 || c.toNat = 10 || c.toNat = 13 ||
    c.toNat = 11 || c.toNat = 12

/-- Python `str.strip()` on the character list: drop whitespace from both ends. -/
def pyStrip (l : List Char) : List Char :=
  ((l.dropWhile isSpace).reverse.dropWhile isSpace).reverse

/-- `get_cache_key(query)`: `query.strip().lower()` (main.py line 46-47). -/
def get_cache_key (query : String) : String :=
  String.mk ((pyStrip query.data).map Char.toLower)

/-- `CACHE_MAX_SIZE = 5000` (main.py line 30). -/
def CACHE_MAX_SIZE : Nat := 5000

/-- `CACHE_TTL = 60 * 60 * 24` (main.py line 31). -/
def CACHE_TTL : Nat := 60 * 60 * 24

/-- `MODEL_COST_PER_1M_TOKENS = 0.50` (main.py line 32), as a rational. -/
def MODEL_COST_PER_1M_TOKENS : ℚ := 1 / 2

/-- `AVG_TOKENS_PER_REQUEST = 500` (main.py line 33). -/
def AVG_TOKENS_PER_REQUEST : Nat := 500

/-- One cache entry: key, cached answer, timestamp of last insertion. -/
abbrev Entry := String × String × Nat

/-- The `OrderedDict` cache: least-recently-used entry first. -/
abbrev Cache := List Entry

/-- The `analytics` counter dictionary (main.py lines 36-41). -/
structure Analytics where
  total_requests : Nat
  cache_hits : Nat
  cache_misses : Nat
  cached_tokens : Nat
deriving DecidableEq

/-- The whole mutable module state: `cache` and `analytics`. -/
structure State where
  cache : Cache
  analytics : Analytics
deriving DecidableEq

/-- Initial module state: empty `OrderedDict`, all counters zero. -/
def initState : State := ⟨[], ⟨0, 0, 0, 0⟩⟩

/-- `key in cache` / `cache.pop(key)` read: first entry with the given key. -/
def cacheGet (c : Cache) (k : String) : Option (String × Nat) :=
  (c.find? (fun e => e.1 == k)).map Prod.snd

/-- `cache.pop(key)` removal: drop the (unique) entry with the given key. -/
def cacheRemove (c : Cache) (k : String) : Cache :=
  c.eraseP (fun e => e.1 == k)

/-- The expiry pass of `prune_cache` (main.py lines 53-55): delete every
entry with `now - ts > CACHE_TTL`. -/
def expire (ttl now : Nat) (c : Cache) : Cache :=
  c.filter (fun e => decide (¬ now - e.2.2 > ttl))

/-- The capacity pass of `prune_cache` (main.py lines 57-58):
`while len(cache) > CACHE_MAX_SIZE: cache.popitem(last=False)`. -/
def evictWhile (maxSize : Nat) : Cache → Cache
  | [] => []
  | e :: rest =>
      if rest.length + 1 > maxSize then evictWhile maxSize rest else e :: rest

/-- `prune_cache()` (main.py lines 49-58): expire, then evict to capacity. -/
def prune_cache (maxSize ttl now : Nat) (c : Cache) : Cache :=
  evictWhile maxSize (expire ttl now c)

/-- `prune_cache` at the level of the whole module state: it only assigns to
`cache`; the `analytics` dictionary does not occur in its body. -/
def prune_state (maxSize ttl now : Nat) (s : State) : State :=
  { s with cache := prune_cache maxSize ttl now s.cache }

/-- The JSON body returned by `POST /` (main.py lines 86-91). -/
structure Response where
  answer : String
  cached : Bool
  latency : Nat
  cacheKey : String
deriving DecidableEq

/-- `query_endpoint` (main.py lines 63-91), parameterized by the
configuration constants and by the clock value `now` for this request. -/
def query_endpoint (maxSize ttl now : Nat) (query : String) (s : State) :
    Response × State :=
  let a1 : Analytics := { s.analytics with
    total_requests := s.analytics.total_requests + 1 }
  let key := get_cache_key query
  let c1 := prune_cache maxSize ttl now s.cache
  match cacheGet c1 key with
  | some (answer, ts) =>
      let c2 := cacheRemove c1 key ++ [(key, answer, ts)]
      let a2 : Analytics := { a1 with
        cache_hits := a1.cache_hits + 1,
        cached_tokens := a1.cached_tokens + AVG_TOKENS_PER_REQUEST }
      (⟨answer, true, 45, key⟩, ⟨c2, a2⟩)
  | none =>
      let answer := "AI response for: " ++ query
      let c2 := c1 ++ [(key, answer, now)]
      let a2 : Analytics := { a1 with cache_misses := a1.cache_misses + 1 }
      (⟨answer, false, 2000, key⟩, ⟨c2, a2⟩)

/-- Run a sequence of `POST /` requests; each request is a pair
`(now, query)` of the clock value during it and the raw query string. -/
def runQueries (maxSize ttl : Nat) (reqs : List (Nat × String)) (s : State) :
    State :=
  reqs.foldl (fun st r => (query_endpoint maxSize ttl r.1 r.2 st).2) s

/-- Python `round(x, 2)`: round to two decimal places (ties modelled
half-up; no stated property depends on tie direction). -/
def round2 (x : ℚ) : ℚ := (round (x * 100) : ℤ) / 100

/-- The JSON body returned by `GET /analytics` (main.py lines 103-113). -/
structure AnalyticsReport where
  hitRate : ℚ
  missRate : ℚ
  totalRequests : Nat
  cacheHits : Nat
  cacheMisses : Nat
  cacheSize : Nat
  costSavings : ℚ
  costSavingsPercent : ℚ
  strategies : List String
deriving DecidableEq

/-- `get_analytics` (main.py lines 96-113). -/
def get_analytics (s : State) : AnalyticsReport :=
  let total := s.analytics.total_requests
  let hit_rate : ℚ := if total ≠ 0 then (s.analytics.cache_hits : ℚ) / total else 0
  let miss_rate : ℚ := if total ≠ 0 then (s.analytics.cache_misses : ℚ) / total else 0
  let savings : ℚ := (s.analytics.cached_tokens : ℚ) * MODEL_COST_PER_1M_TOKENS / 1000000
  let savings_percent : ℚ := hit_rate * 100
  { hitRate := round2 hit_rate
    missRate := round2 miss_rate
    totalRequests := total
    cacheHits := s.analytics.cache_hits
    cacheMisses := s.analytics.cache_misses
    cacheSize := s.cache.length
    costSavings := round2 savings
    costSavingsPercent := round2 savings_percent
    strategies := ["exact match", "LRU eviction", "TTL expiration"] }

/-- `s` and `t` differ only in surrounding whitespace and letter case:
both decompose into an all-whitespace prefix, a core, and an all-whitespace
suffix, with the two cores equal after lowercasing. -/
def wsCaseVariant (s t : String) : Prop :=
  ∃ u1 c1 u2 v1 c2 v2 : List Char,
    s.data = u1 ++ c1 ++ u2 ∧ t.data = v1 ++ c2 ++ v2 ∧
    (∀ c ∈ u1, isSpace c = true) ∧ (∀ c ∈ u2, isSpace c = true) ∧
    (∀ c ∈ v1, isSpace c = true) ∧ (∀ c ∈ v2, isSpace c = true) ∧
    c1.map Char.toLower = c2.map Char.toLower

/-- A family of pairwise-distinct queries that normalization maps to
themselves: the string of `n + 1` letters `a`. -/
def natKey (n : Nat) : String := String.mk (List.replicate (n + 1) 'a')

/-- Well-formedness of the list model of the `OrderedDict`: keys are
pairwise distinct, as mapping semantics guarantees. -/
def keysNodup (c : Cache) : Prop := (c.map Prod.fst).Nodup

/-! ## Lemmas about key normalization -/

theorem char_toNat_ofNat {n : Nat} (h : n.isValidChar) :
    (Char.ofNat n).toNat = n := by
  simp only [Char.ofNat]
  rw [dif_pos h]
  rfl

theorem toLower_toNat_of_upper {c : Char} (h1 : 65 ≤ c.toNat) (h2 : c.toNat ≤ 90) :
    (Char.toLower c).toNat = c.toNat + 32 := by
  have hv : (c.toNat + 32).isValidChar := Or.inl (by omega)
  simp only [Char.toLower]
  rw [if_pos ⟨h1, h2⟩]
  exact char_toNat_ofNat hv

theorem toLower_of_not_upper {c : Char} (h : ¬(65 ≤ c.toNat ∧ c.toNat ≤ 90)) :
    Char.toLower c = c := by
  simp only [Char.toLower]
  rw [if_neg h]

theorem toLower_toLower (c : Char) :
    Char.toLower (Char.toLower c) = Char.toLower c := by
  by_cases h : 65 ≤ c.toNat ∧ c.toNat ≤ 90
  · have h3 := toLower_toNat_of_upper h.1 h.2
    exact toLower_of_not_upper (by omega)
  · simp only [toLower_of_not_upper h]

theorem isSpace_eq_false_of_upper {c : Char} (h : 33 ≤ c.toNat) :
    isSpace c = false := by
  simp only [isSpace, Bool.or_eq_false_iff, decide_eq_false_iff_not]
  omega

theorem isSpace_toLower (c : Char) : isSpace (Char.toLower c) = isSpace c := by
  by_cases h : 65 ≤ c.toNat ∧ c.toNat ≤ 90
  · have h3 := toLower_toNat_of_upper h.1 h.2
    rw [isSpace_eq_false_of_upper (by omega), isSpace_eq_false_of_upper (by omega)]
  · rw [toLower_of_not_upper h]

theorem pyStrip_eq_rdropWhile (l : List Char) :
    pyStrip l = List.rdropWhile isSpace (l.dropWhile isSpace) := rfl

theorem pyStrip_idem (l : List Char) : pyStrip (pyStrip l) = pyStrip l := by
  rw [pyStrip_eq_rdropWhile, pyStrip_eq_rdropWhile]
  have hm : (l.dropWhile isSpace).dropWhile isSpace = l.dropWhile isSpace :=
    List.dropWhile_idempotent isSpace l
  have hpre : List.rdropWhile isSpace (l.dropWhile isSpace) <+: l.dropWhile isSpace :=
    List.rdropWhile_prefix isSpace (l.dropWhile isSpace)
  have hdrop : (List.rdropWhile isSpace (l.dropWhile isSpace)).dropWhile isSpace
      = List.rdropWhile isSpace (l.dropWhile isSpace) := by
    rw [List.dropWhile_eq_self_iff]
    intro hl
    have h0 := List.dropWhile_eq_self_iff.mp hm
    have hlen : 0 < (l.dropWhile isSpace).length :=
      Nat.lt_of_lt_of_le hl hpre.length_le
    have hget := List.IsPrefix.getElem hpre hl
    simp only [List.get_eq_getElem]
    rw [hget]
    have := h0 hlen
    simpa using this
  rw [hdrop, List.rdropWhile_idempotent]

theorem dropWhile_map_toLower (l : List Char) :
    (l.map Char.toLower).dropWhile isSpace
      = (l.dropWhile isSpace).map Char.toLower := by
  rw [List.dropWhile_map]
  have h : isSpace ∘ Char.toLower = isSpace := funext isSpace_toLower
  rw [h]

theorem pyStrip_map_toLower (l : List Char) :
    pyStrip (l.map Char.toLower) = (pyStrip l).map Char.toLower := by
  unfold pyStrip
  rw [dropWhile_map_toLower, ← List.map_reverse, dropWhile_map_toLower,
    ← List.map_reverse]

theorem pyStrip_ws_wrap {u1 c u2 : List Char}
    (h1 : ∀ x ∈ u1, isSpace x = true) (h2 : ∀ x ∈ u2, isSpace x = true) :
    pyStrip (u1 ++ c ++ u2) = pyStrip c := by
  unfold pyStrip
  rw [List.append_assoc, List.dropWhile_append_of_pos h1, List.dropWhile_append]
  by_cases hc : (c.dropWhile isSpace).isEmpty
  · have hc' : c.dropWhile isSpace = [] := by simpa using hc
    have hu2 : u2.dropWhile isSpace = [] := by
      rw [List.dropWhile_eq_nil_iff]
      exact h2
    rw [if_pos hc, hu2, hc']
  · rw [if_neg hc, List.reverse_append,
      List.dropWhile_append_of_pos (by intro a ha; exact h2 a (List.mem_reverse.mp ha))]

theorem get_cache_key_eq_of_wsCaseVariant {s t : String} (h : wsCaseVariant s t) :
    get_cache_key s = get_cache_key t := by
  obtain ⟨u1, c1, u2, v1, c2, v2, hs, ht, hu1, hu2, hv1, hv2, hc⟩ := h
  unfold get_cache_key
  rw [hs, ht, pyStrip_ws_wrap hu1 hu2, pyStrip_ws_wrap hv1 hv2]
  congr 1
  rw [← pyStrip_map_toLower, ← pyStrip_map_toLower, hc]

theorem get_cache_key_idem (s : String) :
    get_cache_key (get_cache_key s) = get_cache_key s := by
  unfold get_cache_key
  show String.mk ((pyStrip ((pyStrip s.data).map Char.toLower)).map Char.toLower)
    = String.mk ((pyStrip s.data).map Char.toLower)
  rw [pyStrip_map_toLower, pyStrip_idem, List.map_map]
  have hll : Char.toLower ∘ Char.toLower = Char.toLower := funext toLower_toLower
  rw [hll]

/-! ## Lemmas about the cache operations -/

theorem evictWhile_length_le (maxSize : Nat) (c : Cache) :
    (evictWhile maxSize c).length ≤ maxSize := by
  induction c with
  | nil => simp [evictWhile]
  | cons e rest ih =>
    by_cases h : rest.length + 1 > maxSize
    · simpa [evictWhile, h] using ih
    · simp only [evictWhile, if_neg h, List.length_cons]
      omega

theorem evictWhile_eq_self {maxSize : Nat} {c : Cache}
    (h : c.length ≤ maxSize) : evictWhile maxSize c = c := by
  cases c with
  | nil => rfl
  | cons e rest =>
    simp only [List.length_cons] at h
    simp [evictWhile, Nat.not_lt.mpr h]

theorem evictWhile_suffix (maxSize : Nat) (c : Cache) :
    evictWhile maxSize c <:+ c := by
  induction c with
  | nil => simp [evictWhile]
  | cons e rest ih =>
    by_cases h : rest.length + 1 > maxSize
    · simp only [evictWhile, if_pos h]
      exact ih.trans (List.suffix_cons e rest)
    · simp [evictWhile, if_neg h]

theorem evictWhile_eq_drop (maxSize : Nat) (c : Cache) :
    evictWhile maxSize c = c.drop (c.length - maxSize) := by
  induction c with
  | nil => simp [evictWhile]
  | cons e rest ih =>
    by_cases h : rest.length + 1 > maxSize
    · have hk : rest.length + 1 - maxSize = (rest.length - maxSize) + 1 := by omega
      simp only [evictWhile, if_pos h, List.length_cons, hk, List.drop_succ_cons]
      exact ih
    · have hk : rest.length + 1 - maxSize = 0 := by omega
      simp [evictWhile, if_neg h, hk]

theorem prune_length_le (maxSize ttl now : Nat) (c : Cache) :
    (prune_cache maxSize ttl now c).length ≤ maxSize :=
  evictWhile_length_le maxSize _

theorem expire_eq_self_of_fresh {ttl now : Nat} {c : Cache}
    (h : ∀ e ∈ c, now - e.2.2 ≤ ttl) : expire ttl now c = c := by
  apply List.filter_eq_self.mpr
  intro e he
  simpa using h e he

theorem prune_eq_self {maxSize ttl now : Nat} {c : Cache}
    (hfresh : ∀ e ∈ c, now - e.2.2 ≤ ttl) (hlen : c.length ≤ maxSize) :
    prune_cache maxSize ttl now c = c := by
  unfold prune_cache
  rw [expire_eq_self_of_fresh hfresh, evictWhile_eq_self hlen]

theorem expire_sublist (ttl now : Nat) (c : Cache) :
    List.Sublist (expire ttl now c) c :=
  List.filter_sublist c

theorem prune_sublist (maxSize ttl now : Nat) (c : Cache) :
    List.Sublist (prune_cache maxSize ttl now c) c :=
  ((evictWhile_suffix maxSize _).sublist).trans (expire_sublist ttl now c)

theorem keysNodup_sublist {c c' : Cache} (h : List.Sublist c' c)
    (hc : keysNodup c) : keysNodup c' :=
  List.Nodup.sublist (h.map Prod.fst) hc

theorem cacheGet_eq_none {c : Cache} {k : String}
    (h : k ∉ c.map Prod.fst) : cacheGet c k = none := by
  unfold cacheGet
  rw [List.find?_eq_none.mpr]
  · rfl
  · intro e he hk
    exact h (List.mem_map.mpr ⟨e, he, by simpa using hk⟩)

theorem cacheGet_mem {c : Cache} {k : String} {a : String} {t : Nat}
    (h : cacheGet c k = some (a, t)) : (k, a, t) ∈ c := by
  unfold cacheGet at h
  cases hf : c.find? (fun e => e.1 == k) with
  | none => rw [hf] at h; simp at h
  | some e =>
    rw [hf] at h
    have hmem := List.mem_of_find?_eq_some hf
    have hpred := List.find?_some hf
    have hk : e.1 = k := by simpa using hpred
    have he2 : e.2 = (a, t) := by simpa using h
    have : e = (k, a, t) := by
      obtain ⟨e1, e2⟩ := e
      simp only at hk he2
      rw [hk, he2]
    rwa [this] at hmem

theorem cacheGet_some_of_mem_keys {c : Cache} {k : String}
    (h : k ∈ c.map Prod.fst) : ∃ a t, cacheGet c k = some (a, t) := by
  unfold cacheGet
  cases hf : c.find? (fun e => e.1 == k) with
  | none =>
    rw [List.find?_eq_none] at hf
    obtain ⟨e, he, hk⟩ := List.mem_map.mp h
    exact absurd hk (by simpa using hf e he)
  | some e => exact ⟨e.2.1, e.2.2, rfl⟩

theorem keys_cacheRemove (c : Cache) (k : String) :
    (cacheRemove c k).map Prod.fst = (c.map Prod.fst).erase k := by
  induction c with
  | nil => rfl
  | cons e rest ih =>
    by_cases h : e.1 = k
    · have hb : (e.1 == k) = true := by simpa using h
      simp [cacheRemove, List.eraseP_cons, List.erase_cons, hb]
    · have hb : (e.1 == k) = false := by simpa using h
      simp only [cacheRemove, List.eraseP_cons, List.erase_cons, hb,
        cond_false, List.map_cons]
      rw [if_neg (by simp [hb])]
      exact congrArg (e.1 :: ·) ih

theorem not_mem_keys_cacheRemove {c : Cache} {k : String}
    (hnd : keysNodup c) : k ∉ (cacheRemove c k).map Prod.fst := by
  rw [keys_cacheRemove]
  exact List.Nodup.not_mem_erase hnd

theorem cacheRemove_sublist (c : Cache) (k : String) :
    List.Sublist (cacheRemove c k) c :=
  List.eraseP_sublist c

theorem query_endpoint_miss {maxSize ttl now : Nat} {q : String} {s : State}
    (h : cacheGet (prune_cache maxSize ttl now s.cache) (get_cache_key q) = none) :
    query_endpoint maxSize ttl now q s =
      (⟨"AI response for: " ++ q, false, 2000, get_cache_key q⟩,
        ⟨prune_cache maxSize ttl now s.cache ++
            [(get_cache_key q, "AI response for: " ++ q, now)],
          ⟨s.analytics.total_requests + 1, s.analytics.cache_hits,
            s.analytics.cache_misses + 1, s.analytics.cached_tokens⟩⟩) := by
  simp [query_endpoint, h]

theorem query_endpoint_hit {maxSize ttl now : Nat} {q : String} {s : State}
    {ans : String} {ts : Nat}
    (h : cacheGet (prune_cache maxSize ttl now s.cache) (get_cache_key q)
      = some (ans, ts)) :
    query_endpoint maxSize ttl now q s =
      (⟨ans, true, 45, get_cache_key q⟩,
        ⟨cacheRemove (prune_cache maxSize ttl now s.cache) (get_cache_key q) ++
            [(get_cache_key q, ans, ts)],
          ⟨s.analytics.total_requests + 1, s.analytics.cache_hits + 1,
            s.analytics.cache_misses,
            s.analytics.cached_tokens + AVG_TOKENS_PER_REQUEST⟩⟩) := by
  simp [query_endpoint, h]

theorem runQueries_nil (maxSize ttl : Nat) (s : State) :
    runQueries maxSize ttl [] s = s := rfl

theorem runQueries_cons (maxSize ttl : Nat) (r : Nat × String)
    (rs : List (Nat × String)) (s : State) :
    runQueries maxSize ttl (r :: rs) s =
      runQueries maxSize ttl rs (query_endpoint maxSize ttl r.1 r.2 s).2 := rfl

theorem runQueries_cons_pair (maxSize ttl now : Nat) (q : String)
    (rs : List (Nat × String)) (s : State) :
    runQueries maxSize ttl ((now, q) :: rs) s =
      runQueries maxSize ttl rs (query_endpoint maxSize ttl now q s).2 := rfl

theorem runQueries_append (maxSize ttl : Nat) (rs1 rs2 : List (Nat × String))
    (s : State) :
    runQueries maxSize ttl (rs1 ++ rs2) s =
      runQueries maxSize ttl rs2 (runQueries maxSize ttl rs1 s) := by
  unfold runQueries
  exact List.foldl_append _ _ _ _

/-- Running lookups on queries with pairwise-distinct fresh keys, all at one
instant `t0`, from a state whose entries are all stamped `t0`: every lookup
misses, each appends its entry at the most-recently-used end, and only
`total_requests` and `cache_misses` advance. -/
theorem runQueries_all_misses (maxSize ttl t0 : Nat) (qs : List String)
    (s : State)
    (hnd : (qs.map get_cache_key).Nodup)
    (hdisj : ∀ q ∈ qs, get_cache_key q ∉ s.cache.map Prod.fst)
    (hts : ∀ e ∈ s.cache, e.2.2 = t0)
    (hlen : s.cache.length + qs.length ≤ maxSize + 1) :
    runQueries maxSize ttl (qs.map fun q => (t0, q)) s =
      ⟨s.cache ++ qs.map fun q => (get_cache_key q, "AI response for: " ++ q, t0),
        ⟨s.analytics.total_requests + qs.length, s.analytics.cache_hits,
          s.analytics.cache_misses + qs.length, s.analytics.cached_tokens⟩⟩ := by
  induction qs generalizing s with
  | nil =>
    simp only [List.map_nil, runQueries_nil, List.append_nil, List.length_nil,
      Nat.add_zero]
  | cons q rest ih =>
    have hfresh : ∀ e ∈ s.cache, t0 - e.2.2 ≤ ttl := by
      intro e he
      rw [hts e he]
      omega
    have hlen0 : s.cache.length ≤ maxSize := by
      simp only [List.length_cons] at hlen
      omega
    have hp : prune_cache maxSize ttl t0 s.cache = s.cache :=
      prune_eq_self hfresh hlen0
    have hmiss : cacheGet (prune_cache maxSize ttl t0 s.cache)
        (get_cache_key q) = none := by
      rw [hp]
      exact cacheGet_eq_none (hdisj q (List.mem_cons_self q rest))
    rw [List.map_cons, runQueries_cons_pair]
    rw [query_endpoint_miss hmiss, hp]
    have hkq : get_cache_key q ∉ rest.map get_cache_key := by
      rw [List.map_cons, List.nodup_cons] at hnd
      exact hnd.1
    rw [ih]
    · simp only [State.mk.injEq, Analytics.mk.injEq, List.append_assoc,
        List.singleton_append, List.map_cons, List.length_cons, true_and,
        and_true]
      omega
    · rw [List.map_cons, List.nodup_cons] at hnd
      exact hnd.2
    · intro q' hq'
      simp only [List.map_append, List.map_cons, List.map_nil,
        List.mem_append, List.mem_singleton]
      rintro (hin | hone)
      · exact hdisj q' (List.mem_cons_of_mem q hq') hin
      · exact hkq (List.mem_map.mpr ⟨q', hq', hone⟩)
    · intro e he
      rcases List.mem_append.mp he with hin | hone
      · exact hts e hin
      · rw [List.mem_singleton.mp hone]
    · simp only [List.length_append, List.length_singleton]
      simp only [List.length_cons] at hlen
      omega

theorem get_cache_key_natKey (n : Nat) : get_cache_key (natKey n) = natKey n := by
  have hdrop : (List.replicate (n + 1) 'a').dropWhile isSpace
      = List.replicate (n + 1) 'a' := by
    rw [List.replicate_succ, List.dropWhile_cons, if_neg (by decide),
      ← List.replicate_succ]
  unfold get_cache_key natKey
  show String.mk ((pyStrip (List.replicate (n + 1) 'a')).map Char.toLower) = _
  unfold pyStrip
  rw [hdrop, List.reverse_replicate, hdrop, List.reverse_replicate,
    List.map_replicate]
  norm_num [show Char.toLower 'a' = 'a' from by decide]

theorem natKey_injective : Function.Injective natKey := by
  intro m n h
  have hd : List.replicate (m + 1) 'a' = List.replicate (n + 1) 'a' :=
    congrArg String.data h
  have hl := congrArg List.length hd
  simp only [List.length_replicate] at hl
  omega

/-! ## Claim C1 -/

/-- C1 counterexample: from the empty cache, 5001 lookups on pairwise
distinct fresh keys leave 5001 entries in the store, exceeding
CACHE_MAX_SIZE, because `prune_cache` runs before the miss-insert and never
after it. -/
theorem claim_C1_counterexample :
    CACHE_MAX_SIZE <
      (runQueries CACHE_MAX_SIZE CACHE_TTL
        ((List.range 5001).map fun n => (0, natKey n)) initState).cache.length := by
  have hmap : (List.range 5001).map (fun n => ((0 : Nat), natKey n)) =
      ((List.range 5001).map natKey).map fun q => (0, q) := by
    rw [List.map_map]
    rfl
  have hnd : (((List.range 5001).map natKey).map get_cache_key).Nodup := by
    rw [List.map_map]
    have : (get_cache_key ∘ natKey) = natKey := funext get_cache_key_natKey
    rw [this]
    exact (List.nodup_range 5001).map natKey_injective
  have hrun := runQueries_all_misses CACHE_MAX_SIZE CACHE_TTL 0
    ((List.range 5001).map natKey) initState hnd
    (by intro q hq; simp [initState]) (by intro e he; simp [initState] at he)
    (by simp [initState, CACHE_MAX_SIZE])
  rw [hmap, hrun]
  simp [CACHE_MAX_SIZE]

/-- C1 amended: the size invariant holds with bound maxSize + 1 after each
lookup completes; the bound maxSize itself holds immediately after the prune
pass inside each lookup (the code prunes before the miss-insert, so a miss
at capacity leaves maxSize + 1 entries until the next lookup prunes). -/
theorem claim_C1_amended (maxSize ttl now : Nat) (q : String) (s : State) :
    (query_endpoint maxSize ttl now q s).2.cache.length ≤ maxSize + 1 ∧
    (prune_cache maxSize ttl now s.cache).length ≤ maxSize := by
  refine ⟨?_, prune_length_le maxSize ttl now s.cache⟩
  have hple := prune_length_le maxSize ttl now s.cache
  cases hget : cacheGet (prune_cache maxSize ttl now s.cache) (get_cache_key q) with
  | none =>
    rw [query_endpoint_miss hget]
    simp only [List.length_append, List.length_singleton]
    omega
  | some v =>
    obtain ⟨ans, ts⟩ := v
    rw [query_endpoint_hit hget]
    simp only [List.length_append, List.length_singleton]
    have h1 : (cacheRemove (prune_cache maxSize ttl now s.cache)
        (get_cache_key q)).length
        ≤ (prune_cache maxSize ttl now s.cache).length :=
      List.length_eraseP_le _
    omega

/-! ## Claim C2 -/

/-- C2 counterexample: with maxSize = 5, six lookups on distinct keys (all
misses, no hits, no expiry) do NOT evict the first-inserted key: all six
keys are still in the store when the sixth lookup completes, because
eviction only happens in the prune pass of a subsequent lookup. -/
theorem claim_C2_counterexample :
    "k0" ∈ (runQueries 5 CACHE_TTL
      [(0, "k0"), (0, "k1"), (0, "k2"), (0, "k3"), (0, "k4"), (0, "k5")]
      initState).cache.map Prod.fst ∧
    (runQueries 5 CACHE_TTL
      [(0, "k0"), (0, "k1"), (0, "k2"), (0, "k3"), (0, "k4"), (0, "k5")]
      initState).cache.length = 6 := by
  exact ⟨by decide, by decide⟩

/-- C2 amended: with maxSize = 5, after 6 distinct-key misses the eviction of
exactly the first-inserted key happens at the NEXT (7th) lookup's prune; and
if the existing key k0 is hit before the 6th insert, k0 is protected: the
eviction that follows (at the 8th lookup) removes the least-recently-used
other key k1 instead. -/
theorem claim_C2_amended :
    ((runQueries 5 CACHE_TTL
      [(0, "k0"), (0, "k1"), (0, "k2"), (0, "k3"), (0, "k4"), (0, "k5"),
        (0, "k6")] initState).cache.map Prod.fst
      = ["k1", "k2", "k3", "k4", "k5", "k6"]) ∧
    ((runQueries 5 CACHE_TTL
      [(0, "k0"), (0, "k1"), (0, "k2"), (0, "k3"), (0, "k4"), (0, "k0"),
        (0, "k5"), (0, "k6")] initState).cache.map Prod.fst
      = ["k2", "k3", "k4", "k0", "k5", "k6"]) := by
  exact ⟨by decide, by decide⟩

/-! ## Claim C3 -/

/-- C3: key normalization is idempotent (`normalize(normalize(s)) ==
normalize(s)` for every string), any two queries differing only in
surrounding whitespace or letter case map to the same cache key, and in
particular "Hello World", " hello world " and "HELLO WORLD" all produce the
cache key "hello world", so after the first is cached the other two lookups
register as hits. -/
theorem claim_C3_normalization :
    (∀ s : String, get_cache_key (get_cache_key s) = get_cache_key s) ∧
    (∀ s t : String, wsCaseVariant s t → get_cache_key s = get_cache_key t) ∧
    (get_cache_key "Hello World" = "hello world" ∧
      get_cache_key " hello world " = "hello world" ∧
      get_cache_key "HELLO WORLD" = "hello world") ∧
    ((query_endpoint CACHE_MAX_SIZE CACHE_TTL 0 " hello world "
        (query_endpoint CACHE_MAX_SIZE CACHE_TTL 0 "Hello World" initState).2).1.cached
          = true ∧
      (query_endpoint CACHE_MAX_SIZE CACHE_TTL 0 "HELLO WORLD"
        (query_endpoint CACHE_MAX_SIZE CACHE_TTL 0 " hello world "
          (query_endpoint CACHE_MAX_SIZE CACHE_TTL 0 "Hello World"
            initState).2).2).1.cached = true) := by
  refine ⟨get_cache_key_idem, fun s t h => get_cache_key_eq_of_wsCaseVariant h, ?_, ?_⟩
  · exact ⟨by decide, by decide, by decide⟩
  · exact ⟨by decide, by decide⟩

/-- Witness for C3: instantiates the whitespace/case-equivalence clause at
the spec's example pair " Foo " and "foo". -/
theorem claim_C3_normalization_witness :
    wsCaseVariant " Foo " "foo" ∧ get_cache_key " Foo " = get_cache_key "foo" := by
  have h : wsCaseVariant " Foo " "foo" :=
    ⟨[' '], ['F', 'o', 'o'], [' '], [], ['f', 'o', 'o'], [],
      by decide, by decide, by decide, by decide, by decide, by decide, by decide⟩
  exact ⟨h, claim_C3_normalization.2.1 " Foo " "foo" h⟩

/-! ## Claim C4 -/

/-- C4 counterexample: pruning a 5001-entry cache of entirely fresh entries
(age 0, none exceeding TTL) still removes an entry, because the capacity
pass of `prune_cache` evicts the least-recently-used entry; so prune does
not remove exactly the entries whose age exceeds TTL. -/
theorem claim_C4_counterexample :
    (∀ e ∈ (List.range 5001).map (fun n => (natKey n, "v", 0)),
      (0 : Nat) - e.2.2 ≤ CACHE_TTL) ∧
    prune_cache CACHE_MAX_SIZE CACHE_TTL 0
        ((List.range 5001).map fun n => (natKey n, "v", 0))
      ≠ (List.range 5001).map fun n => (natKey n, "v", 0) := by
  constructor
  · intro e he
    omega
  · intro h
    have hlen := prune_length_le CACHE_MAX_SIZE CACHE_TTL 0
      ((List.range 5001).map fun n => (natKey n, "v", 0))
    rw [h] at hlen
    simp only [List.length_map, List.length_range, CACHE_MAX_SIZE] at hlen
    omega

/-- C4 amended: after `prune_cache` every retained entry has age ≤ TTL, and
the analytics counters are untouched; the expiry pass retains exactly the
entries with age ≤ TTL, and when the expiry pass alone is within the size
bound, prune removes exactly the expired entries — otherwise it additionally
evicts least-recently-used (possibly unexpired) entries. -/
theorem claim_C4_amended (maxSize ttl now : Nat) (s : State) :
    (∀ e ∈ prune_cache maxSize ttl now s.cache, now - e.2.2 ≤ ttl) ∧
    (∀ e : Entry, e ∈ expire ttl now s.cache ↔
      e ∈ s.cache ∧ now - e.2.2 ≤ ttl) ∧
    ((expire ttl now s.cache).length ≤ maxSize →
      prune_cache maxSize ttl now s.cache = expire ttl now s.cache) ∧
    (prune_state maxSize ttl now s).analytics = s.analytics := by
  refine ⟨?_, ?_, ?_, rfl⟩
  · intro e he
    have hmem : e ∈ expire ttl now s.cache :=
      ((evictWhile_suffix maxSize _).sublist).subset he
    have h2 := (List.mem_filter.mp hmem).2
    simp only [decide_eq_true_eq] at h2
    omega
  · intro e
    unfold expire
    rw [List.mem_filter]
    simp only [decide_eq_true_eq]
    exact and_congr_right fun _ => by omega
  · intro h
    unfold prune_cache
    exact evictWhile_eq_self h

/-- Witness for C4's amended claim: a concrete prune in which the expiry
pass is within the size bound, so prune removes exactly the expired entry. -/
theorem claim_C4_amended_witness :
    (expire 10 20 [("k", "v", 0), ("m", "w", 15)]).length ≤ 5 ∧
    prune_cache 5 10 20 [("k", "v", 0), ("m", "w", 15)]
      = expire 10 20 [("k", "v", 0), ("m", "w", 15)] :=
  ⟨by decide,
    (claim_C4_amended 5 10 20
      ⟨[("k", "v", 0), ("m", "w", 15)], ⟨1, 2, 3, 4⟩⟩).2.2.1 (by decide)⟩

/-! ## Claim C5 -/

theorem cacheGet_append_of_none {c1 c2 : Cache} {k : String}
    (h : cacheGet c1 k = none) : cacheGet (c1 ++ c2) k = cacheGet c2 k := by
  have h1 : c1.find? (fun e => e.1 == k) = none := by
    cases hf : c1.find? (fun e => e.1 == k) with
    | none => rfl
    | some e =>
      unfold cacheGet at h
      rw [hf] at h
      simp at h
  unfold cacheGet
  rw [List.find?_append, h1, Option.none_or]

theorem cacheGet_singleton_self (k : String) (a : String) (t : Nat) :
    cacheGet [(k, a, t)] k = some (a, t) := by
  simp [cacheGet]

theorem not_mem_keys_of_sublist {c c' : Cache} {k : String}
    (hsub : List.Sublist c' c) (h : k ∉ c.map Prod.fst) :
    k ∉ c'.map Prod.fst :=
  fun hmem => h ((hsub.map Prod.fst).subset hmem)

/-- C5: on a hit, the entry is moved to the most-recently-used (last)
position with its stored timestamp unchanged; a read never extends expiry,
so a lookup more than TTL after the entry's timestamp misses even if the
entry was hit meanwhile; only a miss-then-insert writes a fresh timestamp. -/
theorem claim_C5_hit_keeps_timestamp (maxSize ttl now : Nat) (q : String)
    (s : State) (hnd : keysNodup s.cache) :
    (∀ ans ts,
      cacheGet (prune_cache maxSize ttl now s.cache) (get_cache_key q)
          = some (ans, ts) →
      ((query_endpoint maxSize ttl now q s).2.cache.getLast?
          = some (get_cache_key q, ans, ts) ∧
        cacheGet (query_endpoint maxSize ttl now q s).2.cache (get_cache_key q)
          = some (ans, ts))) ∧
    (cacheGet (prune_cache maxSize ttl now s.cache) (get_cache_key q) = none →
      cacheGet (query_endpoint maxSize ttl now q s).2.cache (get_cache_key q)
        = some ("AI response for: " ++ q, now)) ∧
    (∀ ans ts now2,
      cacheGet (prune_cache maxSize ttl now s.cache) (get_cache_key q)
          = some (ans, ts) →
      ttl < now2 - ts →
      (query_endpoint maxSize ttl now2 q
        (query_endpoint maxSize ttl now q s).2).1.cached = false) := by
  have hnd1 : keysNodup (prune_cache maxSize ttl now s.cache) :=
    keysNodup_sublist (prune_sublist maxSize ttl now s.cache) hnd
  refine ⟨?_, ?_, ?_⟩
  · intro ans ts h
    rw [query_endpoint_hit h]
    refine ⟨List.getLast?_concat _, ?_⟩
    rw [cacheGet_append_of_none
      (cacheGet_eq_none (not_mem_keys_cacheRemove hnd1))]
    exact cacheGet_singleton_self _ _ _
  · intro h
    rw [query_endpoint_miss h]
    rw [cacheGet_append_of_none h]
    exact cacheGet_singleton_self _ _ _
  · intro ans ts now2 h hexp
    rw [query_endpoint_hit h]
    have hrm : get_cache_key q ∉
        (cacheRemove (prune_cache maxSize ttl now s.cache)
          (get_cache_key q)).map Prod.fst :=
      not_mem_keys_cacheRemove hnd1
    have hex : get_cache_key q ∉
        (expire ttl now2
          (cacheRemove (prune_cache maxSize ttl now s.cache) (get_cache_key q)
            ++ [(get_cache_key q, ans, ts)])).map Prod.fst := by
      unfold expire
      rw [List.filter_append]
      have hsingle : List.filter
          (fun e : Entry => decide (¬ now2 - e.2.2 > ttl))
          [(get_cache_key q, ans, ts)] = [] := by
        simp only [List.filter_cons, List.filter_nil, decide_eq_true_eq]
        rw [if_neg (by omega)]
      rw [hsingle, List.append_nil]
      exact not_mem_keys_of_sublist (List.filter_sublist _) hrm
    have hmiss2 : cacheGet
        (prune_cache maxSize ttl now2
          (cacheRemove (prune_cache maxSize ttl now s.cache) (get_cache_key q)
            ++ [(get_cache_key q, ans, ts)]))
        (get_cache_key q) = none := by
      apply cacheGet_eq_none
      exact not_mem_keys_of_sublist ((evictWhile_suffix maxSize _).sublist) hex
    rw [query_endpoint_miss hmiss2]

/-- Witness for C5: a concrete hit at time 105 on an entry stamped 100
keeps the timestamp 100 and lands at the most-recently-used position, and a
later lookup at time 200 (age 100 > TTL 10) misses. -/
theorem claim_C5_hit_keeps_timestamp_witness :
    ([("k", "v", 100)] : Cache).map Prod.fst = ["k"] ∧
    cacheGet (prune_cache 5 10 105 [("k", "v", 100)]) (get_cache_key "k")
      = some ("v", 100) ∧
    (query_endpoint 5 10 105 "k"
      ⟨[("k", "v", 100)], ⟨0, 0, 0, 0⟩⟩).2.cache.getLast?
      = some (get_cache_key "k", "v", 100) ∧
    (query_endpoint 5 10 200 "k"
      (query_endpoint 5 10 105 "k"
        ⟨[("k", "v", 100)], ⟨0, 0, 0, 0⟩⟩).2).1.cached = false := by
  have h := claim_C5_hit_keeps_timestamp 5 10 105 "k"
    ⟨[("k", "v", 100)], ⟨0, 0, 0, 0⟩⟩ (by unfold keysNodup; decide)
  exact ⟨by decide, by decide, (h.1 "v" 100 (by decide)).1,
    h.2.2 "v" 100 200 (by decide) (by decide)⟩

/-! ## Claim C6 -/

/-- Running lookups that all hit: every query's key is present in a cache
whose entries are all stamped `t0`, the clock stays at `t0`, and the store
is within capacity; each lookup increments `total_requests` and
`cache_hits`, adds `AVG_TOKENS_PER_REQUEST` to `cached_tokens`, leaves
`cache_misses` alone, and only permutes the stored keys. -/
theorem runQueries_all_hits (maxSize ttl t0 : Nat) (hqs : List String)
    (s : State)
    (hnd : keysNodup s.cache)
    (hts : ∀ e ∈ s.cache, e.2.2 = t0)
    (hlen : s.cache.length ≤ maxSize)
    (hmem : ∀ q ∈ hqs, get_cache_key q ∈ s.cache.map Prod.fst) :
    ∃ c' : Cache,
      runQueries maxSize ttl (hqs.map fun q => (t0, q)) s =
        ⟨c', ⟨s.analytics.total_requests + hqs.length,
          s.analytics.cache_hits + hqs.length,
          s.analytics.cache_misses,
          s.analytics.cached_tokens + hqs.length * AVG_TOKENS_PER_REQUEST⟩⟩ ∧
      (c'.map Prod.fst).Perm (s.cache.map Prod.fst) ∧
      (∀ e ∈ c', e.2.2 = t0) := by
  induction hqs generalizing s with
  | nil =>
    refine ⟨s.cache, ?_, List.Perm.refl _, hts⟩
    simp [runQueries_nil]
  | cons q rest ih =>
    have hfresh : ∀ e ∈ s.cache, t0 - e.2.2 ≤ ttl := by
      intro e he
      rw [hts e he]
      omega
    have hp : prune_cache maxSize ttl t0 s.cache = s.cache :=
      prune_eq_self hfresh hlen
    have hkeymem : get_cache_key q ∈ s.cache.map Prod.fst :=
      hmem q (List.mem_cons_self q rest)
    obtain ⟨ans, ts, hget⟩ := cacheGet_some_of_mem_keys hkeymem
    have hts2 : ts = t0 := hts _ (cacheGet_mem hget)
    have hget' : cacheGet (prune_cache maxSize ttl t0 s.cache)
        (get_cache_key q) = some (ans, t0) := by
      rw [hp, hget, hts2]
    rw [List.map_cons, runQueries_cons_pair]
    rw [query_endpoint_hit hget', hp]
    have hkeys : ((cacheRemove s.cache (get_cache_key q)
        ++ [(get_cache_key q, ans, t0)]).map Prod.fst).Perm
        (s.cache.map Prod.fst) := by
      rw [List.map_append, keys_cacheRemove]
      show ((s.cache.map Prod.fst).erase (get_cache_key q)
        ++ [get_cache_key q]).Perm (s.cache.map Prod.fst)
      exact (List.perm_append_singleton _ _).trans
        (List.perm_cons_erase hkeymem).symm
    have hnd' : keysNodup (cacheRemove s.cache (get_cache_key q)
        ++ [(get_cache_key q, ans, t0)]) :=
      (hkeys.nodup_iff).mpr hnd
    have hts' : ∀ e ∈ cacheRemove s.cache (get_cache_key q)
        ++ [(get_cache_key q, ans, t0)], e.2.2 = t0 := by
      intro e he
      rcases List.mem_append.mp he with hin | hone
      · exact hts e ((cacheRemove_sublist _ _).subset hin)
      · rw [List.mem_singleton.mp hone]
    have hlen' : (cacheRemove s.cache (get_cache_key q)
        ++ [(get_cache_key q, ans, t0)]).length ≤ maxSize := by
      have h1 := hkeys.length_eq
      simp only [List.length_map] at h1
      omega
    have hmem' : ∀ q' ∈ rest, get_cache_key q' ∈
        (cacheRemove s.cache (get_cache_key q)
          ++ [(get_cache_key q, ans, t0)]).map Prod.fst := by
      intro q' hq'
      exact hkeys.mem_iff.mpr (hmem q' (List.mem_cons_of_mem q hq'))
    obtain ⟨c', hrun, hperm', hts''⟩ :=
      ih ⟨cacheRemove s.cache (get_cache_key q)
        ++ [(get_cache_key q, ans, t0)],
        ⟨s.analytics.total_requests + 1, s.analytics.cache_hits + 1,
          s.analytics.cache_misses,
          s.analytics.cached_tokens + AVG_TOKENS_PER_REQUEST⟩⟩
        hnd' hts' hlen' hmem'
    refine ⟨c', ?_, hperm'.trans hkeys, hts''⟩
    rw [hrun]
    simp only [State.mk.injEq, Analytics.mk.injEq, List.length_cons,
      Nat.succ_mul, true_and, and_true]
    omega

/-- C6: N lookups on queries with pairwise-distinct keys starting from the
empty cache (all misses) followed by M lookups on previously-inserted,
unexpired keys (all hits) yield totalRequests = N + M, cacheMisses = N and
cacheHits = M; moreover every single lookup increments total_requests by
exactly one, unconditionally (independently of pruning and of the hit/miss
decision). -/
theorem claim_C6_hit_miss_counting (maxSize ttl t0 : Nat)
    (qs hqs : List String)
    (hnd : (qs.map get_cache_key).Nodup)
    (hqlen : qs.length ≤ maxSize)
    (hmem : ∀ q ∈ hqs, get_cache_key q ∈ qs.map get_cache_key) :
    (∃ c' : Cache,
      runQueries maxSize ttl ((qs ++ hqs).map fun q => (t0, q)) initState =
        ⟨c', ⟨qs.length + hqs.length, hqs.length, qs.length,
          hqs.length * AVG_TOKENS_PER_REQUEST⟩⟩) ∧
    (∀ (now : Nat) (q : String) (s : State),
      (query_endpoint maxSize ttl now q s).2.analytics.total_requests
        = s.analytics.total_requests + 1) := by
  constructor
  · rw [List.map_append, runQueries_append]
    have hmiss := runQueries_all_misses maxSize ttl t0 qs initState hnd
      (by intro q hq; simp [initState]) (by intro e he; simp [initState] at he)
      (by simp [initState]; omega)
    have hcache : (initState.cache ++ qs.map fun q =>
        (get_cache_key q, "AI response for: " ++ q, t0)) =
        qs.map fun q => (get_cache_key q, "AI response for: " ++ q, t0) := by
      simp [initState]
    rw [hcache] at hmiss
    rw [hmiss]
    have hkeys2 : ((qs.map fun q =>
        (get_cache_key q, "AI response for: " ++ q, t0)).map Prod.fst)
        = qs.map get_cache_key := by
      rw [List.map_map]
      rfl
    obtain ⟨c', hrun, hperm, hts⟩ := runQueries_all_hits maxSize ttl t0 hqs
      ⟨qs.map fun q => (get_cache_key q, "AI response for: " ++ q, t0),
        ⟨initState.analytics.total_requests + qs.length,
          initState.analytics.cache_hits,
          initState.analytics.cache_misses + qs.length,
          initState.analytics.cached_tokens⟩⟩
      (by show keysNodup _; unfold keysNodup; rw [hkeys2]; exact hnd)
      (by intro e he
          obtain ⟨q, hq, hqe⟩ := List.mem_map.mp he
          rw [← hqe])
      (by simpa using hqlen)
      (by intro q hq; rw [hkeys2]; exact hmem q hq)
    rw [hrun]
    exact ⟨c', by simp [initState]⟩
  · intro now q s
    cases hget : cacheGet (prune_cache maxSize ttl now s.cache)
        (get_cache_key q) with
    | none => rw [query_endpoint_miss hget]
    | some v =>
      obtain ⟨ans, ts⟩ := v
      rw [query_endpoint_hit hget]

/-- Witness for C6: two distinct-key misses followed by three hits on those
keys yield totals (5, 3, 2) with 1500 cached tokens. -/
theorem claim_C6_hit_miss_counting_witness :
    (∃ c' : Cache,
      runQueries 5 CACHE_TTL
        ((["a", "b"] ++ ["a", "a", "b"]).map fun q => (0, q)) initState =
        ⟨c', ⟨5, 3, 2, 3 * AVG_TOKENS_PER_REQUEST⟩⟩) ∧
    (query_endpoint 5 CACHE_TTL 0 "a" initState).2.analytics.total_requests
      = initState.analytics.total_requests + 1 := by
  have h := claim_C6_hit_miss_counting 5 CACHE_TTL 0 ["a", "b"]
    ["a", "a", "b"] (by decide) (by decide) (by decide)
  exact ⟨h.1, h.2 0 "a" initState⟩

/-! ## Claim C7 -/

/-- C7: with totalRequests = 0 the report's hitRate and missRate are 0 — the
division is guarded by the zero test, and the model of `get_analytics` is a
total function, so no division error can occur; with totalRequests > 0 the
rates are cacheHits/totalRequests and cacheMisses/totalRequests rounded to
two decimal places. -/
theorem claim_C7_zero_state_analytics (s : State) :
    (s.analytics.total_requests = 0 →
      (get_analytics s).hitRate = 0 ∧ (get_analytics s).missRate = 0) ∧
    (s.analytics.total_requests ≠ 0 →
      (get_analytics s).hitRate
          = round2 ((s.analytics.cache_hits : ℚ)
              / (s.analytics.total_requests : ℚ)) ∧
      (get_analytics s).missRate
          = round2 ((s.analytics.cache_misses : ℚ)
              / (s.analytics.total_requests : ℚ))) := by
  constructor
  · intro h
    simp [get_analytics, h, round2]
  · intro h
    simp [get_analytics, h]

/-- Witness for C7: the zero-request state reports rate 0, and a state with
4 requests and 3 hits reports round2 (3/4). -/
theorem claim_C7_zero_state_analytics_witness :
    (get_analytics initState).hitRate = 0 ∧
    (get_analytics ⟨[], ⟨4, 3, 1, 1500⟩⟩).hitRate = round2 ((3 : ℚ) / 4) := by
  have h0 := (claim_C7_zero_state_analytics initState).1 rfl
  have h4 := (claim_C7_zero_state_analytics ⟨[], ⟨4, 3, 1, 1500⟩⟩).2 (by decide)
  refine ⟨h0.1, ?_⟩
  rw [h4.1]
  norm_num

/-! ## Claim C8 -/

theorem round2_mono {x y : ℚ} (h : x ≤ y) : round2 x ≤ round2 y := by
  unfold round2
  have h1 : round (x * 100) ≤ round (y * 100) := by
    rw [round_eq, round_eq]
    exact Int.floor_mono (by linarith)
  have h2 : ((round (x * 100) : ℤ) : ℚ) ≤ ((round (y * 100) : ℤ) : ℚ) := by
    exact_mod_cast h1
  exact (div_le_div_iff_of_pos_right (by norm_num)).mpr h2

theorem get_analytics_costSavings (s : State) :
    (get_analytics s).costSavings
      = round2 ((s.analytics.cached_tokens : ℚ)
          * MODEL_COST_PER_1M_TOKENS / 1000000) := rfl

theorem costSavings_mono {s s' : State}
    (h : s.analytics.cached_tokens ≤ s'.analytics.cached_tokens) :
    (get_analytics s).costSavings ≤ (get_analytics s').costSavings := by
  rw [get_analytics_costSavings, get_analytics_costSavings]
  apply round2_mono
  have hc : (s.analytics.cached_tokens : ℚ)
      ≤ (s'.analytics.cached_tokens : ℚ) := by exact_mod_cast h
  have h2 : (s.analytics.cached_tokens : ℚ) * MODEL_COST_PER_1M_TOKENS
      ≤ (s'.analytics.cached_tokens : ℚ) * MODEL_COST_PER_1M_TOKENS :=
    mul_le_mul_of_nonneg_right hc (by norm_num [ MODEL_COST_PER_1M_TOKENS])
  exact (div_le_div_iff_of_pos_right (by norm_num)).mpr h2

theorem step_cached_tokens_le (maxSize ttl now : Nat) (q : String) (s : State) :
    s.analytics.cached_tokens
      ≤ (query_endpoint maxSize ttl now q s).2.analytics.cached_tokens := by
  cases hget : cacheGet (prune_cache maxSize ttl now s.cache)
      (get_cache_key q) with
  | none =>
    rw [query_endpoint_miss hget]
  | some v =>
    obtain ⟨ans, ts⟩ := v
    rw [query_endpoint_hit hget]
    exact Nat.le_add_right _ _

/-- C8: the reported costSavings is non-decreasing over any sequence of
requests, and each hit adds exactly AVG_TOKENS_PER_REQUEST to the
cached_tokens counter it is computed from. -/
theorem claim_C8_cost_savings_monotone (maxSize ttl : Nat) :
    (∀ (reqs : List (Nat × String)) (s : State),
      (get_analytics s).costSavings
        ≤ (get_analytics (runQueries maxSize ttl reqs s)).costSavings) ∧
    (∀ (now : Nat) (q : String) (s : State),
      (query_endpoint maxSize ttl now q s).1.cached = true →
      (query_endpoint maxSize ttl now q s).2.analytics.cached_tokens
        = s.analytics.cached_tokens + AVG_TOKENS_PER_REQUEST) := by
  constructor
  · intro reqs
    induction reqs with
    | nil =>
      intro s
      rw [runQueries_nil]
    | cons r rs ih =>
      intro s
      rw [runQueries_cons]
      exact le_trans
        (costSavings_mono (step_cached_tokens_le maxSize ttl r.1 r.2 s)) (ih _)
  · intro now q s hc
    cases hget : cacheGet (prune_cache maxSize ttl now s.cache)
        (get_cache_key q) with
    | none =>
      rw [query_endpoint_miss hget] at hc
      simp at hc
    | some v =>
      obtain ⟨ans, ts⟩ := v
      rw [query_endpoint_hit hget]

/-- Witness for C8: a concrete hit (repeat of query "a") adds exactly
AVG_TOKENS_PER_REQUEST cached tokens. -/
theorem claim_C8_cost_savings_monotone_witness :
    ((query_endpoint 5 CACHE_TTL 0 "a"
        (query_endpoint 5 CACHE_TTL 0 "a" initState).2).1.cached = true) ∧
    (query_endpoint 5 CACHE_TTL 0 "a"
        (query_endpoint 5 CACHE_TTL 0 "a" initState).2).2.analytics.cached_tokens
      = (query_endpoint 5 CACHE_TTL 0 "a"
          initState).2.analytics.cached_tokens + AVG_TOKENS_PER_REQUEST := by
  have h := (claim_C8_cost_savings_monotone 5 CACHE_TTL).2 0 "a"
    (query_endpoint 5 CACHE_TTL 0 "a" initState).2 (by decide)
  exact ⟨by decide, h⟩

/-! ## Claim C9 -/

theorem counters_invariant (maxSize ttl : Nat) (reqs : List (Nat × String))
    (s : State)
    (h1 : s.analytics.cache_hits + s.analytics.cache_misses
      = s.analytics.total_requests)
    (h2 : s.analytics.cached_tokens
      = AVG_TOKENS_PER_REQUEST * s.analytics.cache_hits) :
    (runQueries maxSize ttl reqs s).analytics.cache_hits
        + (runQueries maxSize ttl reqs s).analytics.cache_misses
      = (runQueries maxSize ttl reqs s).analytics.total_requests ∧
    (runQueries maxSize ttl reqs s).analytics.cached_tokens
      = AVG_TOKENS_PER_REQUEST
          * (runQueries maxSize ttl reqs s).analytics.cache_hits := by
  induction reqs generalizing s with
  | nil => exact ⟨h1, h2⟩
  | cons r rs ih =>
    rw [runQueries_cons]
    apply ih
    · cases hget : cacheGet (prune_cache maxSize ttl r.1 s.cache)
          (get_cache_key r.2) with
      | none =>
        rw [query_endpoint_miss hget]
        simp only
        omega
      | some v =>
        obtain ⟨ans, ts⟩ := v
        rw [query_endpoint_hit hget]
        simp only
        omega
    · cases hget : cacheGet (prune_cache maxSize ttl r.1 s.cache)
          (get_cache_key r.2) with
      | none =>
        rw [query_endpoint_miss hget]
        exact h2
      | some v =>
        obtain ⟨ans, ts⟩ := v
        rw [query_endpoint_hit hget]
        simp only
        rw [h2, Nat.mul_succ]

/-- C9: after any sequence of requests from the initial zeroed counters,
cacheHits + cacheMisses = totalRequests and
cachedTokens = AVG_TOKENS_PER_REQUEST * cacheHits; and each single request
increments totalRequests by one, never decreases any counter, and
increments exactly one of cacheHits/cacheMisses. -/
theorem claim_C9_counter_invariants (maxSize ttl : Nat) :
    (∀ reqs : List (Nat × String),
      (runQueries maxSize ttl reqs initState).analytics.cache_hits
          + (runQueries maxSize ttl reqs initState).analytics.cache_misses
        = (runQueries maxSize ttl reqs initState).analytics.total_requests ∧
      (runQueries maxSize ttl reqs initState).analytics.cached_tokens
        = AVG_TOKENS_PER_REQUEST
            * (runQueries maxSize ttl reqs initState).analytics.cache_hits) ∧
    (∀ (now : Nat) (q : String) (s : State),
      (query_endpoint maxSize ttl now q s).2.analytics.total_requests
          = s.analytics.total_requests + 1 ∧
      s.analytics.cache_hits
          ≤ (query_endpoint maxSize ttl now q s).2.analytics.cache_hits ∧
      s.analytics.cache_misses
          ≤ (query_endpoint maxSize ttl now q s).2.analytics.cache_misses ∧
      s.analytics.cached_tokens
          ≤ (query_endpoint maxSize ttl now q s).2.analytics.cached_tokens ∧
      (((query_endpoint maxSize ttl now q s).2.analytics.cache_hits
            = s.analytics.cache_hits + 1 ∧
          (query_endpoint maxSize ttl now q s).2.analytics.cache_misses
            = s.analytics.cache_misses) ∨
        ((query_endpoint maxSize ttl now q s).2.analytics.cache_hits
            = s.analytics.cache_hits ∧
          (query_endpoint maxSize ttl now q s).2.analytics.cache_misses
            = s.analytics.cache_misses + 1))) := by
  constructor
  · intro reqs
    exact counters_invariant maxSize ttl reqs initState rfl rfl
  · intro now q s
    cases hget : cacheGet (prune_cache maxSize ttl now s.cache)
        (get_cache_key q) with
    | none =>
      rw [query_endpoint_miss hget]
      exact ⟨rfl, le_rfl, Nat.le_succ _, le_rfl, Or.inr ⟨rfl, rfl⟩⟩
    | some v =>
      obtain ⟨ans, ts⟩ := v
      rw [query_endpoint_hit hget]
      exact ⟨rfl, Nat.le_succ _, le_rfl, Nat.le_add_right _ _,
        Or.inl ⟨rfl, rfl⟩⟩

/-! ## Claim C10 -/

theorem evictWhile_cons (maxSize : Nat) (e : Entry) (l : Cache) :
    evictWhile maxSize (e :: l) =
      if l.length + 1 > maxSize then evictWhile maxSize l else e :: l := rfl

theorem evictWhile_append_last {maxSize : Nat} (hmax : 1 ≤ maxSize)
    (c : Cache) (x : Entry) :
    ∃ c₂ : Cache, evictWhile maxSize (c ++ [x]) = c₂ ++ [x] ∧
      List.Sublist c₂ c := by
  induction c with
  | nil =>
    refine ⟨[], ?_, List.Sublist.refl _⟩
    rw [List.nil_append, evictWhile_cons, if_neg (by simp; omega)]
  | cons e rest ih =>
    rw [List.cons_append, evictWhile_cons]
    by_cases h : (rest ++ [x]).length + 1 > maxSize
    · rw [if_pos h]
      obtain ⟨c₂, heq, hsub⟩ := ih
      exact ⟨c₂, heq, hsub.trans (List.sublist_cons_self e rest)⟩
    · rw [if_neg h]
      exact ⟨e :: rest, rfl, List.Sublist.refl _⟩

/-- C10: the value stored and returned on a miss is "AI response for: "
concatenated with the raw, un-normalized query; a later request whose query
normalizes to the same cache key (e.g. a whitespace/case variant) and is
made within TTL hits and returns the answer built from the FIRST request's
original spelling, not from its own query text. -/
theorem claim_C10_raw_query_in_answer (maxSize ttl now now2 : Nat)
    (q1 q2 : String) (s : State)
    (hkey : get_cache_key q2 = get_cache_key q1)
    (hmiss : cacheGet (prune_cache maxSize ttl now s.cache)
      (get_cache_key q1) = none)
    (hmax : 1 ≤ maxSize)
    (hfresh : now2 - now ≤ ttl) :
    (query_endpoint maxSize ttl now q1 s).1.answer
        = "AI response for: " ++ q1 ∧
    (query_endpoint maxSize ttl now2 q2
        (query_endpoint maxSize ttl now q1 s).2).1.cached = true ∧
    (query_endpoint maxSize ttl now2 q2
        (query_endpoint maxSize ttl now q1 s).2).1.answer
      = "AI response for: " ++ q1 := by
  have hknot : get_cache_key q1 ∉
      (prune_cache maxSize ttl now s.cache).map Prod.fst := by
    intro hmem
    obtain ⟨a, t, hga⟩ := cacheGet_some_of_mem_keys hmem
    rw [hmiss] at hga
    exact Option.noConfusion hga
  rw [query_endpoint_miss hmiss]
  refine ⟨rfl, ?_⟩
  have hexp : expire ttl now2
      (prune_cache maxSize ttl now s.cache ++
        [(get_cache_key q1, "AI response for: " ++ q1, now)])
      = expire ttl now2 (prune_cache maxSize ttl now s.cache) ++
        [(get_cache_key q1, "AI response for: " ++ q1, now)] := by
    unfold expire
    rw [List.filter_append]
    congr 1
    simp only [List.filter_cons, List.filter_nil, decide_eq_true_eq]
    rw [if_pos (by omega)]
  have hknot2 : get_cache_key q1 ∉
      (expire ttl now2 (prune_cache maxSize ttl now s.cache)).map Prod.fst :=
    not_mem_keys_of_sublist (expire_sublist ttl now2 _) hknot
  obtain ⟨c₂, heq, hsub⟩ := evictWhile_append_last hmax
    (expire ttl now2 (prune_cache maxSize ttl now s.cache))
    (get_cache_key q1, "AI response for: " ++ q1, now)
  have hget2 : cacheGet
      (prune_cache maxSize ttl now2
        (prune_cache maxSize ttl now s.cache ++
          [(get_cache_key q1, "AI response for: " ++ q1, now)]))
      (get_cache_key q2) = some ("AI response for: " ++ q1, now) := by
    rw [hkey]
    show cacheGet (evictWhile maxSize (expire ttl now2
      (prune_cache maxSize ttl now s.cache ++
        [(get_cache_key q1, "AI response for: " ++ q1, now)])))
      (get_cache_key q1) = some ("AI response for: " ++ q1, now)
    rw [hexp, heq,
      cacheGet_append_of_none
        (cacheGet_eq_none (not_mem_keys_of_sublist hsub hknot2))]
    exact cacheGet_singleton_self _ _ _
  rw [query_endpoint_hit hget2]
  exact ⟨rfl, rfl⟩

/-- Witness for C10: caching "Hello World" and then querying the variant
" hello world " returns the original spelling "AI response for: Hello
World" as a hit. -/
theorem claim_C10_raw_query_in_answer_witness :
    (query_endpoint CACHE_MAX_SIZE CACHE_TTL 0 "Hello World"
        initState).1.answer = "AI response for: " ++ "Hello World" ∧
    (query_endpoint CACHE_MAX_SIZE CACHE_TTL 0 " hello world "
        (query_endpoint CACHE_MAX_SIZE CACHE_TTL 0 "Hello World"
          initState).2).1.cached = true ∧
    (query_endpoint CACHE_MAX_SIZE CACHE_TTL 0 " hello world "
        (query_endpoint CACHE_MAX_SIZE CACHE_TTL 0 "Hello World"
          initState).2).1.answer = "AI response for: " ++ "Hello World" := by
  have h := claim_C10_raw_query_in_answer CACHE_MAX_SIZE CACHE_TTL 0 0
    "Hello World" " hello world " initState
    (by decide) (by decide) (by norm_num [CACHE_MAX_SIZE]) (by decide)
  exact h

end AiCaching
